import Mathlib

/-!
# Verification of the MNIST training script (`ref-conv.py`)

Shallow embedding of the training/evaluation control loop of the single-file
CNN training script.  Numeric tensor values are modelled as rationals (`ℚ`);
a batch of inputs is a list of per-example feature vectors together with a
list of integer labels.  Everything the script delegates to the tensor
framework (the model's forward pass, autograd + the SGD parameter update,
the numeric values of the two loss functions) is passed in as an explicit
function parameter, exactly as the Python functions `train` and `test`
receive `model`, `optimizer` and the loss choice as arguments.
-/

namespace RefConv

/-- A batch produced by a data loader: per-example input vectors paired with
the batch's integer class labels (lines 55, 94 of `ref-conv.py`). -/
def Batch : Type := List (List ℚ) × List ℤ

/-- One-hot encoding of an integer label, line 68 of `ref-conv.py`:
`(np.arange(10) == y_one_hot[:, None]).astype(np.float32)`.  Each label `L`
is compared elementwise against `0,1,...,9`; positions that match become `1`
and all others `0` (so an out-of-range label yields the all-zero vector). -/
def oneHot10 (L : ℤ) : List ℚ :=
  (List.range 10).map (fun (i : ℕ) => if (i : ℤ) = L then 1 else 0)

/-- The loss-function object together with the targets it is applied to:
either cross-entropy against integer-encoded labels, or mean-squared-error
against one-hot encoded labels. -/
inductive LossChoice where
  | CE (target : List ℤ)
  | MSE (target : List (List ℚ))
deriving DecidableEq, Repr

/-- Lines 61–70 of `ref-conv.py`: the per-batch loss-function selection.
`Except` models a deterministic failure of the run; the source's
`if loss == 'CE': ... else: ...` has no failing branch, so every string
other than `"CE"` silently falls through to the MSE branch, which one-hot
encodes the targets. -/
def selectLoss (loss : String) (target : List ℤ) : Except String LossChoice :=
  if loss == "CE" then
    Except.ok (LossChoice.CE target)
  else
    Except.ok (LossChoice.MSE (target.map oneHot10))

/-- The selection `selectLoss` never fails: the source has no error branch. -/
theorem selectLoss_isOk (loss : String) (target : List ℤ) :
    ∃ c, selectLoss loss target = Except.ok c := by
  unfold selectLoss
  split
  · exact ⟨LossChoice.CE target, rfl⟩
  · exact ⟨LossChoice.MSE (target.map oneHot10), rfl⟩

/-! ## Evaluation (`test`, lines 87–106) -/

/-- The mutable state attached to the model object: its learnable parameters
(of an abstract type `σ`), the train/eval mode flag toggled by
`model.train()` / `model.eval()`, and the autograd gradient-tracking flag
toggled by `torch.no_grad()`. -/
structure ModelState (σ : Type) where
  params : σ
  training : Bool
  gradEnabled : Bool
deriving Repr

/-- The `torch.no_grad()` context manager (line 93): gradient tracking is
disabled for the body and restored to its previous value afterwards. -/
def withNoGrad {σ α : Type} (st : ModelState σ) (body : ModelState σ → ModelState σ × α) :
    ModelState σ × α :=
  let res := body { st with gradEnabled := false }
  ({ res.1 with gradEnabled := st.gradEnabled }, res.2)

/-- Helper for `output.argmax(dim=1)` on a single example's score vector (line 100):
the index of the first maximal entry. -/
def argmaxAux : List ℚ → ℕ → ℕ → ℚ → ℕ
  | [], _, best, _ => best
  | x :: xs, i, best, bv =>
    if bv < x then argmaxAux xs (i + 1) i x else argmaxAux xs (i + 1) best bv

/-- Index of the (first) maximum score in a per-example output vector. -/
def argmax : List ℚ → ℕ
  | [] => 0
  | x :: xs => argmaxAux xs 1 0 x

/-- Per-example negative-log-likelihood loss `F.nll_loss` (line 98): the
negated score of the target class.  PyTorch's `nll_loss` assumes the scores
are log-probabilities and simply returns `-output[target]`. -/
def nll (o : List ℚ) (t : ℤ) : ℚ := -(o.getD t.toNat 0)

/-- Summed loss `F.nll_loss(output, target, reduction='sum')` over one batch (line 98). -/
def nllSum (output : List (List ℚ)) (target : List ℤ) : ℚ :=
  (((output.zip target).map (fun p => nll p.1 p.2)).sum)

/-- Correct predictions `pred.eq(target.view_as(pred)).sum()` (lines 100–101): how many examples
of the batch have `argmax(output) == label`. -/
def correctCount (output : List (List ℚ)) (target : List ℤ) : ℕ :=
  (output.zip target).countP (fun p => (argmax p.1 : ℤ) == p.2)

/-- Dataset size `len(test_loader.dataset)`: the loader enumerates its dataset exactly
once, so the dataset size is the total number of examples over all batches. -/
def datasetLen (loader : List Batch) : ℕ :=
  (loader.map (fun b => b.1.length)).sum

/-- What one evaluation pass reports (lines 103–106). -/
structure TestReport where
  avgLoss : ℚ
  correct : ℕ
  total : ℕ
  accuracy : ℚ
deriving Repr

/-- The `test` function, lines 87–106 of `ref-conv.py`.  `forward` is the
model's forward pass (framework-owned).  Sets the model to evaluation mode,
accumulates the summed NLL loss and the count of correct top-1 predictions
over all batches inside a `no_grad` scope, then divides both by the dataset
size. -/
def test {σ : Type} (forward : σ → List (List ℚ) → List (List ℚ))
    (model : ModelState σ) (test_loader : List Batch) :
    ModelState σ × TestReport :=
  let m1 := { model with training := false }
  let res := withNoGrad m1 (fun st =>
    (st, test_loader.foldl (fun (acc : ℚ × ℕ) b =>
      let output := forward st.params b.1
      (acc.1 + nllSum output b.2, acc.2 + correctCount output b.2)) ((0 : ℚ), (0 : ℕ))))
  let n := datasetLen test_loader
  (res.1,
   { avgLoss := res.2.1 / (n : ℚ)
     correct := res.2.2
     total := n
     accuracy := (res.2.2 : ℚ) / (n : ℚ) })

/-! ## Claims C1 and C10 -/

/-- C1 (counterexample): the string `"XYZ"` is neither `"CE"` nor `"MSE"`,
yet the loss selection does not fail: it silently selects mean-squared-error
with one-hot encoded targets, exactly as the input `"MSE"` would. -/
theorem selectLoss_unknown_no_failure :
    selectLoss "XYZ" [3] =
      Except.ok (LossChoice.MSE [[0, 0, 0, 1, 0, 0, 0, 0, 0, 0]]) ∧
    selectLoss "XYZ" [3] = selectLoss "MSE" [3] := by
  exact ⟨rfl, rfl⟩

/-- C1 (amended): for input `"CE"` cross-entropy is selected and the targets
stay integer-encoded; for every other string — `"MSE"` or not — the
selection silently falls through to mean-squared-error with the targets
one-hot encoded immediately before the loss computation; no string value
makes the run fail. -/
theorem selectLoss_amended (s : String) (t : List ℤ) :
    (s = "CE" → selectLoss s t = Except.ok (LossChoice.CE t)) ∧
    (s ≠ "CE" → selectLoss s t = Except.ok (LossChoice.MSE (t.map oneHot10))) := by
  constructor
  · intro h
    simp [selectLoss, h]
  · intro h
    simp [selectLoss, h]

/-- Witness for `selectLoss_amended` at the concrete inputs `"CE"` and
`"QQ"` with targets `[2]`. -/
theorem selectLoss_amended_witness :
    selectLoss "CE" [2] = Except.ok (LossChoice.CE [2]) ∧
    selectLoss "QQ" [2] = Except.ok (LossChoice.MSE [[0, 0, 1, 0, 0, 0, 0, 0, 0, 0]]) := by
  constructor
  · exact (selectLoss_amended "CE" [2]).1 rfl
  · have h := (selectLoss_amended "QQ" [2]).2 (by decide)
    rw [h]
    rfl

/-- The one-hot vector always has length 10. -/
theorem oneHot10_length (L : ℤ) : (oneHot10 L).length = 10 := by
  simp only [oneHot10, List.length_map, List.length_range]

/-- Entry `i` of the one-hot vector is `1` exactly when `i = L`. -/
theorem oneHot10_getD (L : ℤ) (i : ℕ) (hi : i < 10) :
    (oneHot10 L).getD i 0 = if (i : ℤ) = L then 1 else 0 := by
  simp only [oneHot10, List.getD_eq_getElem?_getD, List.getElem?_map,
    List.getElem?_range hi, Option.map_some', Option.getD_some]

/-- An out-of-range label is encoded as the all-zero vector. -/
theorem oneHot10_outOfRange (L : ℤ) (h : L < 0 ∨ 9 < L) :
    oneHot10 L = List.replicate 10 0 := by
  refine List.eq_replicate_iff.2 ⟨oneHot10_length L, ?_⟩
  intro b hb
  simp only [oneHot10, List.mem_map, List.mem_range] at hb
  obtain ⟨i, hi, rfl⟩ := hb
  rw [if_neg]
  omega

/-- C10: the one-hot encoding is hard-wired to 10 classes: the encoded
vector has length 10; entry `i` is `1` exactly when `i = L`; for a label
with `0 ≤ L ≤ 9` position `L` holds `1`; and for any label outside `0..9`
the vector is all zeros (no error is raised). -/
theorem oneHot10_spec (L : ℤ) :
    (oneHot10 L).length = 10 ∧
    (∀ i : ℕ, i < 10 → (oneHot10 L).getD i 0 = if (i : ℤ) = L then 1 else 0) ∧
    (0 ≤ L → L ≤ 9 → (oneHot10 L).getD L.toNat 0 = 1) ∧
    ((L < 0 ∨ 9 < L) → oneHot10 L = List.replicate 10 0) := by
  refine ⟨oneHot10_length L, fun i hi => oneHot10_getD L i hi, ?_, oneHot10_outOfRange L⟩
  intro h0 h9
  have hlt : L.toNat < 10 := by omega
  rw [oneHot10_getD L L.toNat hlt, if_pos (Int.toNat_of_nonneg h0)]

/-- Witness for `oneHot10_spec`: label `3` gets a `1` in position `3` of a
length-10 vector, and the out-of-range labels `11` and `-2` yield all-zero
vectors. -/
theorem oneHot10_spec_witness :
    (oneHot10 3).getD 2 0 = 0 ∧
    (oneHot10 3).getD 3 0 = 1 ∧
    oneHot10 11 = List.replicate 10 0 ∧
    oneHot10 (-2) = List.replicate 10 0 := by
  refine ⟨?_, ?_, ?_, ?_⟩
  · have h := (oneHot10_spec 3).2.1 2 (by omega)
    rw [h]
    decide
  · exact (oneHot10_spec 3).2.2.1 (by omega) (by omega)
  · exact (oneHot10_spec 11).2.2.2 (Or.inr (by omega))
  · exact (oneHot10_spec (-2)).2.2.2 (Or.inl (by omega))

/-! ## Claims C2, C6, C9: properties of the evaluation pass -/

/-- The whole test set as one flat list of (per-example output, label) pairs,
in loader order, with outputs produced by the model's forward pass. -/
def flatResults {σ : Type} (forward : σ → List (List ℚ) → List (List ℚ))
    (p : σ) (L : List Batch) : List (List ℚ × ℤ) :=
  L.flatMap (fun b => (forward p b.1).zip b.2)

/-- The accumulation loop of `test` computes the flat sum of per-example NLL
losses and the flat count of correct top-1 predictions. -/
theorem testFold_eq {σ : Type} (forward : σ → List (List ℚ) → List (List ℚ))
    (p : σ) (L : List Batch) :
    ∀ (a : ℚ) (c : ℕ),
      L.foldl (fun (acc : ℚ × ℕ) b =>
        (acc.1 + nllSum (forward p b.1) b.2, acc.2 + correctCount (forward p b.1) b.2)) (a, c) =
      (a + ((flatResults forward p L).map (fun q => nll q.1 q.2)).sum,
       c + (flatResults forward p L).countP (fun q => (argmax q.1 : ℤ) == q.2)) := by
  induction L with
  | nil => intro a c; simp [flatResults]
  | cons b rest ih =>
    intro a c
    rw [List.foldl_cons, ih]
    simp only [flatResults, List.flatMap_cons, List.map_append, List.sum_append,
      List.countP_append, nllSum, correctCount, Prod.mk.injEq]
    constructor
    · ring
    · omega

/-- C2: the evaluation report's accuracy is exactly the number of test
examples whose predicted class (index of the maximum score) equals the
label, divided by the total number of test examples; and the reported mean
loss is exactly the summed per-example negative-log-likelihood loss divided
by the total number of test examples. -/
theorem test_metrics {σ : Type} (forward : σ → List (List ℚ) → List (List ℚ))
    (m : ModelState σ) (L : List Batch) :
    (test forward m L).2.accuracy =
      ((flatResults forward m.params L).countP (fun q => (argmax q.1 : ℤ) == q.2) : ℚ) /
        (datasetLen L : ℚ) ∧
    (test forward m L).2.avgLoss =
      ((flatResults forward m.params L).map (fun q => nll q.1 q.2)).sum /
        (datasetLen L : ℚ) := by
  simp only [test, withNoGrad]
  rw [testFold_eq forward m.params L 0 0]
  simp

/-- C9: one evaluation pass never modifies the model's parameter set, and
gradient tracking is disabled only for the scope of the pass (it is restored
to its previous value afterwards). -/
theorem test_frame {σ : Type} (forward : σ → List (List ℚ) → List (List ℚ))
    (m : ModelState σ) (L : List Batch) :
    ((test forward m L).1).params = m.params ∧
    ((test forward m L).1).gradEnabled = m.gradEnabled := by
  exact ⟨rfl, rfl⟩

/-- C6 (failing input): `test` applies `F.nll_loss` to the model's raw
scores, but the network ends in a plain linear layer (no log-softmax), so
the per-example loss is just the negated raw score of the target class.  A
model whose output gives the correct class the positive score `1` makes the
reported mean evaluation loss `-1 < 0`, contradicting the claim that every
evaluation report has mean loss in `[0, +∞)`. -/
theorem test_avgLoss_negative :
    (test (fun (_ : Unit) d => d) ⟨(), true, true⟩
        [([[1, 0, 0, 0, 0, 0, 0, 0, 0, 0]], [0])]).2.avgLoss = -1 ∧
    (test (fun (_ : Unit) d => d) ⟨(), true, true⟩
        [([[1, 0, 0, 0, 0, 0, 0, 0, 0, 0]], [0])]).2.avgLoss < 0 := by
  have h : (test (fun (_ : Unit) d => d) ⟨(), true, true⟩
      [([[1, 0, 0, 0, 0, 0, 0, 0, 0, 0]], [0])]).2.avgLoss = -1 := by
    simp [test, withNoGrad, nllSum, nll, datasetLen, correctCount]
  refine ⟨h, ?_⟩
  rw [h]
  norm_num

/-! ## Training (`train`, lines 49–84) -/

/-- Everything the `train` function receives from its caller and from the
ambient `FLAGS` object.  `forward` is the model's forward pass; `ceLoss` and
`mseLoss` are the numeric values of `nn.CrossEntropyLoss()` and
`nn.MSELoss()`; `backstep` is `loss_.backward(); optimizer.step()` — the
framework-owned SGD parameter update at the optimizer's current learning
rate.  `log_interval` and `loss_fn` are `FLAGS.log_interval` and the
script's `loss` argument. -/
structure TrainCtx (σ : Type) where
  forward : σ → List (List ℚ) → List (List ℚ)
  ceLoss : List (List ℚ) → List ℤ → ℚ
  mseLoss : List (List ℚ) → List (List ℚ) → ℚ
  backstep : ℚ → σ → ℚ → σ
  log_interval : ℕ
  loss_fn : String

/-- The value `loss_ = loss_fn(output, target)` (lines 61–73): the numeric loss of a
batch under the selected loss function.  The `.error` branch is unreachable
(`selectLoss_isOk`): the source's selection cannot fail. -/
def lossValue {σ : Type} (ctx : TrainCtx σ) (output : List (List ℚ)) (target : List ℤ) : ℚ :=
  match selectLoss ctx.loss_fn target with
  | Except.ok (LossChoice.CE t) => ctx.ceLoss output t
  | Except.ok (LossChoice.MSE t) => ctx.mseLoss output t
  | Except.error _ => 0

/-- The `for batch_idx, (data, target) in enumerate(train_loader)` loop of
`train` (lines 55–82): forward pass, loss, backward + optimizer step, and
appending `loss_.item()` to `tmp_loss` whenever
`batch_idx % FLAGS.log_interval == 0`.  Returns the final parameters and
`tmp_loss`. -/
def trainGo {σ : Type} (ctx : TrainCtx σ) (lr : ℚ) :
    ℕ → σ → List Batch → σ × List ℚ
  | _, params, [] => (params, [])
  | batch_idx, params, b :: rest =>
    let output := ctx.forward params b.1
    let loss_ := lossValue ctx output b.2
    let params1 := ctx.backstep lr params loss_
    let r := trainGo ctx lr (batch_idx + 1) params1 rest
    if batch_idx % ctx.log_interval == 0 then (r.1, loss_ :: r.2) else r

/-- The per-batch loss values of one epoch, in batch order, with the
parameters evolving by one optimizer step per batch. -/
def stepLosses {σ : Type} (ctx : TrainCtx σ) (lr : ℚ) :
    σ → List Batch → List ℚ
  | _, [] => []
  | params, b :: rest =>
    let loss_ := lossValue ctx (ctx.forward params b.1) b.2
    loss_ :: stepLosses ctx lr (ctx.backstep lr params loss_) rest

/-- The `train` function, lines 49–84: set the model to training mode, run
the batch loop, return the updated model and the sampled loss list. -/
def train {σ : Type} (ctx : TrainCtx σ) (lr : ℚ) (model : ModelState σ)
    (train_loader : List Batch) : ModelState σ × List ℚ :=
  let m1 := { model with training := true }
  let r := trainGo ctx lr 0 m1.params train_loader
  ({ m1 with params := r.1 }, r.2)

/-- Each epoch performs one training step per batch. -/
theorem stepLosses_length {σ : Type} (ctx : TrainCtx σ) (lr : ℚ) :
    ∀ (L : List Batch) (p : σ), (stepLosses ctx lr p L).length = L.length := by
  intro L
  induction L with
  | nil => intro p; rfl
  | cons b rest ih => intro p; simp [stepLosses, ih]

/-- The batch loop retains exactly the loss values of the batches whose
zero-based index is a multiple of `log_interval`. -/
theorem trainGo_snd {σ : Type} (ctx : TrainCtx σ) (lr : ℚ) :
    ∀ (L : List Batch) (i : ℕ) (p : σ),
      (trainGo ctx lr i p L).2 =
        (((stepLosses ctx lr p L).enumFrom i).filter
          (fun q => q.1 % ctx.log_interval == 0)).map Prod.snd := by
  intro L
  induction L with
  | nil => intro i p; rfl
  | cons b rest ih =>
    intro i p
    simp only [trainGo, stepLosses, List.enumFrom, List.filter_cons]
    by_cases h : (i % ctx.log_interval == 0) = true
    · simp only [h, if_true, List.map_cons, ih]
    · simp only [eq_false_of_ne_true h, Bool.false_eq_true, if_false, ih]

/-- Indices that stay strictly between `0` and `log_interval` are never
logged. -/
theorem enumFrom_filter_nil (LI : ℕ) :
    ∀ (l : List ℚ) (j : ℕ), 0 < j → j + l.length ≤ LI →
      (l.enumFrom j).filter (fun q => q.1 % LI == 0) = [] := by
  intro l
  induction l with
  | nil => intro j _ _; rfl
  | cons x xs ih =>
    intro j hj hle
    simp only [List.enumFrom, List.filter_cons]
    have hjlt : j < LI := by simp only [List.length_cons] at hle; omega
    have h1 : (j % LI == 0) = false := by
      rw [beq_eq_false_iff_ne, Nat.mod_eq_of_lt hjlt]
      omega
    rw [h1, if_neg Bool.false_ne_true]
    exact ih (j + 1) (by omega) (by simp only [List.length_cons] at hle; omega)

/-! ## The data loader's batching (`DataLoader(..., batch_size=B)`) -/

/-- The data loader splits the dataset into consecutive batches of `B`
examples; the last batch may be smaller (`drop_last` defaults to false). -/
def chunkList {α : Type} (B : ℕ) : List α → List (List α)
  | [] => []
  | x :: xs => (x :: xs.take (B - 1)) :: chunkList B (xs.drop (B - 1))
termination_by l => l.length
decreasing_by simp only [List.length_drop, List.length_cons]; omega

/-- A loader with batch size `B` yields `⌈N / B⌉` batches for a dataset of
`N` examples. -/
theorem chunkList_length {α : Type} (B : ℕ) (hB : 0 < B) :
    ∀ l : List α, (chunkList B l).length = (l.length + B - 1) / B
  | [] => by
    simp only [chunkList, List.length_nil]
    rw [Nat.div_eq_of_lt (by omega)]
  | x :: xs => by
    have ih := chunkList_length B hB (xs.drop (B - 1))
    simp only [chunkList, List.length_cons, List.length_drop] at ih ⊢
    rcases Nat.lt_or_ge xs.length B with h | h
    · have e1 : (xs.length - (B - 1) + B - 1) / B = 0 := by
        have h0 : xs.length - (B - 1) = 0 := by omega
        rw [h0]
        exact Nat.div_eq_of_lt (by omega)
      have e2 : (xs.length + 1 + B - 1) / B = 1 := by
        have hB2 : xs.length + 1 + B - 1 = xs.length + B := by omega
        rw [hB2, Nat.add_div_right _ hB, Nat.div_eq_of_lt h]
      omega
    · have e1 : xs.length - (B - 1) + B - 1 = xs.length := by omega
      have e2 : xs.length + 1 + B - 1 = xs.length + B := by omega
      rw [ih, e1, e2, Nat.add_div_right _ hB]
termination_by l => l.length
decreasing_by simp only [List.length_drop, List.length_cons]; omega

/-- The training loader: the dataset of `(input, label)` examples, chunked
into batches of `B`, each batch separated into its inputs and its labels. -/
def makeLoader (B : ℕ) (ds : List (List ℚ × ℤ)) : List Batch :=
  (chunkList B ds).map (fun c => (c.map Prod.fst, c.map Prod.snd))

/-- C5: within an epoch, the loss value is appended to the in-memory
`tmp_loss` sequence exactly for the batches whose zero-based index is a
multiple of `log_interval` (first conjunct); for a training set of `N`
examples with batch size `B` the epoch executes exactly `⌈N / B⌉` training
steps (second conjunct); and when `log_interval` exceeds the number of
batches, only batch index 0 is logged (third conjunct). -/
theorem train_logging {σ : Type} (ctx : TrainCtx σ) (lr : ℚ) (m : ModelState σ)
    (ds : List (List ℚ × ℤ)) (B : ℕ) (L : List Batch)
    (hB : 0 < B) (hN : 0 < ds.length) (hL : L = makeLoader B ds) :
    (train ctx lr m L).2 =
      (((stepLosses ctx lr m.params L).enum.filter
        (fun q => q.1 % ctx.log_interval == 0)).map Prod.snd) ∧
    (stepLosses ctx lr m.params L).length = (ds.length + B - 1) / B ∧
    (L.length < ctx.log_interval →
      (train ctx lr m L).2 = (stepLosses ctx lr m.params L).take 1) := by
  have hlen : L.length = (ds.length + B - 1) / B := by
    rw [hL]
    simp only [makeLoader, List.length_map]
    exact chunkList_length B hB ds
  have hmain : (train ctx lr m L).2 =
      (((stepLosses ctx lr m.params L).enumFrom 0).filter
        (fun q => q.1 % ctx.log_interval == 0)).map Prod.snd :=
    trainGo_snd ctx lr L 0 m.params
  have hSlen : (stepLosses ctx lr m.params L).length = L.length :=
    stepLosses_length ctx lr L m.params
  refine ⟨hmain, by rw [hSlen, hlen], ?_⟩
  intro hint
  have hpos : 0 < L.length := by
    rw [hlen]
    have h1 : 1 ≤ (ds.length + B - 1) / B := (Nat.one_le_div_iff hB).2 (by omega)
    omega
  cases hS : stepLosses ctx lr m.params L with
  | nil => rw [hS] at hSlen; simp only [List.length_nil] at hSlen; omega
  | cons a rest =>
    rw [hS] at hmain hSlen
    have hrest : (List.enumFrom 1 rest).filter
        (fun q => q.1 % ctx.log_interval == 0) = [] := by
      refine enumFrom_filter_nil ctx.log_interval rest 1 (by omega) ?_
      simp only [List.length_cons] at hSlen
      omega
    rw [hmain]
    simp only [List.enumFrom, List.filter_cons, Nat.zero_mod, beq_self_eq_true,
      if_true, hrest, List.map_cons, List.map_nil, List.take_succ_cons, List.take_zero]

/-- A concrete instantiation for `train_logging`: an abstract 2-example
dataset, batch size 128, log interval 100, cross-entropy — the end-to-end
scenario of the spec. -/
def wCtx : TrainCtx Unit :=
  { forward := fun _ d => d
    ceLoss := fun _ _ => 1
    mseLoss := fun _ _ => 2
    backstep := fun _ p _ => p
    log_interval := 100
    loss_fn := "CE" }

/-- A deterministic 2-example synthetic dataset standing in for MNIST. -/
def wDS : List (List ℚ × ℤ) := [([1], 0), ([2], 1)]

/-- A fresh model state for the concrete scenarios. -/
def wModel : ModelState Unit := ⟨(), false, true⟩

/-- Witness for `train_logging`: the concrete 2-example run with batch size
128 and log interval 100. -/
theorem train_logging_witness :
    (train wCtx 1 wModel (makeLoader 128 wDS)).2 =
      (((stepLosses wCtx 1 wModel.params (makeLoader 128 wDS)).enum.filter
        (fun q => q.1 % wCtx.log_interval == 0)).map Prod.snd) ∧
    (stepLosses wCtx 1 wModel.params (makeLoader 128 wDS)).length =
      (wDS.length + 128 - 1) / 128 ∧
    ((makeLoader 128 wDS).length < wCtx.log_interval →
      (train wCtx 1 wModel (makeLoader 128 wDS)).2 =
        (stepLosses wCtx 1 wModel.params (makeLoader 128 wDS)).take 1) :=
  train_logging wCtx 1 wModel wDS 128 (makeLoader 128 wDS) (by omega) (by decide) rfl

/-! ## The learning-rate scheduler (`StepLR(optimizer, step_size=1, gamma=0.7)`)
and the main loop (lines 147–157) -/

/-- The state of `torch.optim.lr_scheduler.StepLR`: the optimizer's learning
rate is `base_lr * gamma ^ (last_epoch / step_size)`, and `scheduler.step()`
advances `last_epoch` by one.  The decay is a fixed multiplicative factor,
independent of any measured performance. -/
structure StepLRState where
  base_lr : ℚ
  step_size : ℕ
  gamma : ℚ
  last_epoch : ℕ
deriving Repr

/-- The optimizer's current effective learning rate under the scheduler. -/
def StepLRState.lr (s : StepLRState) : ℚ :=
  s.base_lr * s.gamma ^ (s.last_epoch / s.step_size)

/-- Advance the scheduler: `scheduler.step()`. -/
def StepLRState.step (s : StepLRState) : StepLRState :=
  { s with last_epoch := s.last_epoch + 1 }

/-- Line 151: `StepLR(optimizer, step_size=1, gamma=0.7)` — decay the
learning rate by the factor 0.7 every epoch. -/
def mkStepLR (lr0 : ℚ) : StepLRState :=
  { base_lr := lr0, step_size := 1, gamma := 7 / 10, last_epoch := 0 }

/-- Observable events of the main loop, for stating its control structure. -/
inductive TraceEvent where
  | trainPass (epoch : ℕ)
  | testPass (epoch : ℕ)
  | schedStep (epoch : ℕ)
deriving DecidableEq, Repr

/-- Is the event a training pass? -/
def isTrainPass : TraceEvent → Bool
  | TraceEvent.trainPass _ => true
  | _ => false

/-- Is the event an evaluation pass? -/
def isTestPass : TraceEvent → Bool
  | TraceEvent.testPass _ => true
  | _ => false

/-- Is the event a scheduler step? -/
def isSchedStep : TraceEvent → Bool
  | TraceEvent.schedStep _ => true
  | _ => false

/-- The state threaded through the epoch loop of `main`: the model, the
scheduler, the accumulated `loss_values` list (line 155), and the trace of
observable events. -/
structure RunAcc (σ : Type) where
  model : ModelState σ
  sched : StepLRState
  loss_values : List ℚ
  trace : List TraceEvent

/-- One iteration of `for epoch in range(1, epochs + 1)` (lines 153–157):
train over the training set, extend `loss_values`, evaluate over the test
set, then step the scheduler — in that order. -/
def runOneEpoch {σ : Type} (ctx : TrainCtx σ) (train_loader test_loader : List Batch)
    (epoch : ℕ) (r : RunAcc σ) : RunAcc σ :=
  let tr := train ctx r.sched.lr r.model train_loader
  let r1 : RunAcc σ :=
    { r with model := tr.1, loss_values := r.loss_values ++ tr.2,
             trace := r.trace ++ [TraceEvent.trainPass epoch] }
  let te := test ctx.forward r1.model test_loader
  let r2 : RunAcc σ :=
    { r1 with model := te.1, trace := r1.trace ++ [TraceEvent.testPass epoch] }
  { r2 with sched := r2.sched.step, trace := r2.trace ++ [TraceEvent.schedStep epoch] }

/-- Lines 147–157 of `main`: initialize `loss_values` and the scheduler,
then run `epochs` iterations of the epoch loop. -/
def mainLoop {σ : Type} (ctx : TrainCtx σ) (train_loader test_loader : List Batch)
    (lr0 : ℚ) (epochs : ℕ) (m0 : ModelState σ) : RunAcc σ :=
  (List.range' 1 epochs).foldl
    (fun r e => runOneEpoch ctx train_loader test_loader e r)
    { model := m0, sched := mkStepLR lr0, loss_values := [], trace := [] }

/-- The epoch loop emits the train/test/sched triple once per epoch. -/
theorem foldl_epochs_trace {σ : Type} (ctx : TrainCtx σ) (tl vl : List Batch) :
    ∀ (es : List ℕ) (r : RunAcc σ),
      (es.foldl (fun r e => runOneEpoch ctx tl vl e r) r).trace =
        r.trace ++ es.flatMap (fun e =>
          [TraceEvent.trainPass e, TraceEvent.testPass e, TraceEvent.schedStep e]) := by
  intro es
  induction es with
  | nil => intro r; simp
  | cons e rest ih =>
    intro r
    rw [List.foldl_cons, ih]
    simp [runOneEpoch, List.append_assoc]

/-- The epoch loop only touches the scheduler through `scheduler.step()`,
once per epoch. -/
theorem foldl_epochs_sched {σ : Type} (ctx : TrainCtx σ) (tl vl : List Batch) :
    ∀ (es : List ℕ) (r : RunAcc σ),
      (es.foldl (fun r e => runOneEpoch ctx tl vl e r) r).sched.base_lr = r.sched.base_lr ∧
      (es.foldl (fun r e => runOneEpoch ctx tl vl e r) r).sched.gamma = r.sched.gamma ∧
      (es.foldl (fun r e => runOneEpoch ctx tl vl e r) r).sched.step_size = r.sched.step_size ∧
      (es.foldl (fun r e => runOneEpoch ctx tl vl e r) r).sched.last_epoch =
        r.sched.last_epoch + es.length := by
  intro es
  induction es with
  | nil => intro r; simp
  | cons e rest ih =>
    intro r
    rw [List.foldl_cons]
    obtain ⟨h1, h2, h3, h4⟩ := ih (runOneEpoch ctx tl vl e r)
    rw [h1, h2, h3, h4]
    simp [runOneEpoch, StepLRState.step]
    omega

/-- Counting one kind of event in the per-epoch triples. -/
theorem countP_flatMap_triples (p : TraceEvent → Bool)
    (h : ∀ e : ℕ, ([TraceEvent.trainPass e, TraceEvent.testPass e,
        TraceEvent.schedStep e].countP p) = 1) :
    ∀ es : List ℕ,
      ((es.flatMap (fun e => [TraceEvent.trainPass e, TraceEvent.testPass e,
        TraceEvent.schedStep e])).countP p) = es.length := by
  intro es
  induction es with
  | nil => rfl
  | cons e rest ih =>
    simp only [List.flatMap_cons, List.countP_append, ih, h e, List.length_cons]
    omega

/-- C4: the main loop performs exactly `epochs` iterations, and each
iteration is one training pass, then one evaluation pass, then one
scheduler step, in that order; in particular each of the three event kinds
occurs exactly `epochs` times. -/
theorem mainLoop_trace {σ : Type} (ctx : TrainCtx σ) (tl vl : List Batch)
    (lr0 : ℚ) (epochs : ℕ) (m0 : ModelState σ) :
    (mainLoop ctx tl vl lr0 epochs m0).trace =
      (List.range' 1 epochs).flatMap (fun e =>
        [TraceEvent.trainPass e, TraceEvent.testPass e, TraceEvent.schedStep e]) ∧
    ((mainLoop ctx tl vl lr0 epochs m0).trace.countP isTrainPass) = epochs ∧
    ((mainLoop ctx tl vl lr0 epochs m0).trace.countP isTestPass) = epochs ∧
    ((mainLoop ctx tl vl lr0 epochs m0).trace.countP isSchedStep) = epochs := by
  have htr : (mainLoop ctx tl vl lr0 epochs m0).trace =
      (List.range' 1 epochs).flatMap (fun e =>
        [TraceEvent.trainPass e, TraceEvent.testPass e, TraceEvent.schedStep e]) := by
    rw [mainLoop, foldl_epochs_trace]
    rfl
  refine ⟨htr, ?_, ?_, ?_⟩
  · rw [htr, countP_flatMap_triples isTrainPass (fun e => by rfl), List.length_range']
  · rw [htr, countP_flatMap_triples isTestPass (fun e => by rfl), List.length_range']
  · rw [htr, countP_flatMap_triples isSchedStep (fun e => by rfl), List.length_range']

/-- C3: after `k` completed epochs of the main loop, the scheduler's
effective learning rate is exactly `lr0 * 0.7 ^ k`: the scheduler is stepped
once per epoch and each step multiplies the rate by the fixed factor `0.7`,
independent of any measured performance. -/
theorem mainLoop_lr {σ : Type} (ctx : TrainCtx σ) (tl vl : List Batch)
    (lr0 : ℚ) (k : ℕ) (m0 : ModelState σ) :
    (mainLoop ctx tl vl lr0 k m0).sched.lr = lr0 * (7 / 10 : ℚ) ^ k := by
  obtain ⟨h1, h2, h3, h4⟩ := foldl_epochs_sched ctx tl vl (List.range' 1 k)
    { model := m0, sched := mkStepLR lr0, loss_values := [], trace := [] }
  rw [mainLoop, StepLRState.lr, h1, h2, h3, h4]
  simp [mkStepLR, List.length_range']

/-- C8: determinism as a two-run property — two runs of the main loop with
identical configuration, identical initial model, and identical (already
shuffled) batch streams produce identical sequences of logged loss values.
The shuffle and all framework randomness enter only through `ctx` and the
loaders, so fixing them fixes the run. -/
theorem mainLoop_deterministic {σ : Type} (ctx : TrainCtx σ) (tl vl : List Batch)
    (lr0 : ℚ) (k : ℕ) (m0 : ModelState σ) (r1 r2 : RunAcc σ)
    (h1 : r1 = mainLoop ctx tl vl lr0 k m0) (h2 : r2 = mainLoop ctx tl vl lr0 k m0) :
    r1.loss_values = r2.loss_values := by
  rw [h1, h2]

/-- Witness for `mainLoop_deterministic`: two identical one-epoch runs over
the concrete 2-example dataset. -/
theorem mainLoop_deterministic_witness :
    (mainLoop wCtx (makeLoader 128 wDS) [] 1 1 wModel).loss_values =
      (mainLoop wCtx (makeLoader 128 wDS) [] 1 1 wModel).loss_values :=
  mainLoop_deterministic wCtx (makeLoader 128 wDS) [] 1 1 wModel
    (mainLoop wCtx (makeLoader 128 wDS) [] 1 1 wModel)
    (mainLoop wCtx (makeLoader 128 wDS) [] 1 1 wModel) rfl rfl

/-! ## Checkpointing (lines 143–145 and 159–160) -/

/-- A model's parameter set as `state_dict()` exposes it: an ordered mapping
from parameter name to tensor value (tensors flattened to rational lists). -/
abbrev StateDict := List (String × List ℚ)

/-- Serialization entry point `model.state_dict()`: the model's current parameter mapping. -/
def state_dict (m : StateDict) : StateDict := m

/-- Saving `torch.save(sd, path)` (line 160): the checkpoint artifact is an opaque
serialization of the state dict; the framework guarantees that loading it
back yields the saved mapping, so the artifact is modelled as the mapping
itself. -/
def torch_save (sd : StateDict) : StateDict := sd

/-- Loading `torch.load(path)` (line 144): recover the saved state dict. -/
def torch_load (f : StateDict) : StateDict := f

/-- Look up a parameter tensor by name in a checkpoint. -/
def lookupParam (ckpt : StateDict) (k : String) : Option (List ℚ) :=
  (ckpt.find? (fun p => p.1 == k)).map Prod.snd

/-- Restoring `model.load_state_dict(ckpt)` (line 145): every parameter of the current
model is replaced by the checkpoint's tensor of the same name; a missing
name is a fatal error (strict loading). -/
def load_state_dict : StateDict → StateDict → Except String StateDict
  | [], _ => Except.ok []
  | (k, _) :: rest, ckpt =>
    match lookupParam ckpt k with
    | some v => (load_state_dict rest ckpt).map (fun r => (k, v) :: r)
    | none => Except.error (String.append "Missing key(s) in state_dict: " k)

/-- Lookup skips an entry with a different key. -/
theorem lookupParam_cons_ne (k q : String) (v : List ℚ) (ckpt : StateDict)
    (h : (q == k) = false) :
    lookupParam ((q, v) :: ckpt) k = lookupParam ckpt k := by
  simp only [lookupParam]
  rw [List.find?_cons_of_neg]
  simp [h]

/-- Loading ignores checkpoint entries whose key the model does not have. -/
theorem load_state_dict_skip (q : String) (v : List ℚ) :
    ∀ (fresh ckpt : StateDict), (∀ k ∈ fresh.map Prod.fst, (q == k) = false) →
      load_state_dict fresh ((q, v) :: ckpt) = load_state_dict fresh ckpt := by
  intro fresh
  induction fresh with
  | nil => intro ckpt _; rfl
  | cons p rest ih =>
    intro ckpt h
    obtain ⟨k, w⟩ := p
    have hk : (q == k) = false := h k (by simp)
    simp only [load_state_dict, lookupParam_cons_ne k q v ckpt hk,
      ih ckpt (fun k2 hk2 => h k2 (by simp [hk2]))]

/-- Restoring a saved state dict into a model with the same parameter names
recovers the saved parameters exactly. -/
theorem load_state_dict_roundtrip :
    ∀ (fresh m : StateDict), fresh.map Prod.fst = m.map Prod.fst →
      (m.map Prod.fst).Nodup →
      load_state_dict fresh m = Except.ok m := by
  intro fresh
  induction fresh with
  | nil =>
    intro m hkeys _
    have : m = [] := by
      cases m with
      | nil => rfl
      | cons b mr => simp at hkeys
    rw [this]
    rfl
  | cons p fr ih =>
    intro m hkeys hnodup
    obtain ⟨k, w⟩ := p
    cases m with
    | nil => simp at hkeys
    | cons b mr =>
      obtain ⟨k2, v⟩ := b
      simp only [List.map_cons, List.cons.injEq] at hkeys
      obtain ⟨hk, hkeys2⟩ := hkeys
      subst hk
      simp only [List.map_cons, List.nodup_cons] at hnodup
      obtain ⟨hkni, hnodup2⟩ := hnodup
      have hfirst : lookupParam ((k, v) :: mr) k = some v := by
        simp [lookupParam, List.find?_cons_of_pos]
      have hskip : load_state_dict fr ((k, v) :: mr) = load_state_dict fr mr := by
        refine load_state_dict_skip k v fr mr ?_
        intro k2 hk2
        rw [hkeys2] at hk2
        rw [beq_eq_false_iff_ne]
        intro he
        exact hkni (he ▸ hk2)
      simp only [load_state_dict, hfirst, hskip, ih mr hkeys2 hnodup2, Except.map]

/-- C7: saving the model's parameter set to a checkpoint and restoring the
checkpoint into a freshly constructed model with the same parameter names
(identical topology) succeeds and yields exactly the saved parameters —
hence identical predictions, whatever function of the parameters the
model's forward pass is, on every input batch. -/
theorem checkpoint_roundtrip (m fresh : StateDict)
    (hkeys : fresh.map Prod.fst = m.map Prod.fst)
    (hnodup : (m.map Prod.fst).Nodup) :
    load_state_dict fresh (torch_load (torch_save (state_dict m))) = Except.ok m ∧
    ∀ (forward : StateDict → List (List ℚ) → List (List ℚ)) (x : List (List ℚ)),
      (load_state_dict fresh (torch_load (torch_save (state_dict m)))).map
        (fun d => forward d x) = Except.ok (forward m x) := by
  have h : load_state_dict fresh (torch_load (torch_save (state_dict m))) = Except.ok m :=
    load_state_dict_roundtrip fresh m hkeys hnodup
  exact ⟨h, fun forward x => by rw [h]; rfl⟩

/-- A freshly constructed copy of the script's `Model`: the `Sequential`
modules with parameters are the convolutions at indices 0 and 2 and the
linear layers at indices 6 and 8, each with a weight and a bias. -/
def wFresh : StateDict :=
  [("0.weight", [0]), ("0.bias", [0]), ("2.weight", [0]), ("2.bias", [0]),
   ("6.weight", [0]), ("6.bias", [0]), ("8.weight", [0]), ("8.bias", [0])]

/-- A trained parameter set over the same names. -/
def wTrained : StateDict :=
  [("0.weight", [1]), ("0.bias", [2]), ("2.weight", [3]), ("2.bias", [4]),
   ("6.weight", [5]), ("6.bias", [6]), ("8.weight", [7]), ("8.bias", [8])]

/-- Witness for `checkpoint_roundtrip`: restoring `wTrained`'s checkpoint
into the fresh model recovers `wTrained` exactly. -/
theorem checkpoint_roundtrip_witness :
    load_state_dict wFresh (torch_load (torch_save (state_dict wTrained))) =
      Except.ok wTrained :=
  (checkpoint_roundtrip wTrained wFresh (by decide) (by decide)).1

end RefConv
